import Mathlib

/-!
Verification of the price-hunter Cloudflare worker (src/index.js).

The file shallowly embeds the deterministic core of the worker: the
hard-fit scorer, the ranker, the per-adapter post-extraction pipelines
(Pricy, Reselecto, OLX discovery/details), the merge/filter pipeline, the
TTL result cache, and the stable cache-key derivation
(stableStringify + FNV-1a).  JavaScript numbers are modelled as `ℚ`
(the code performs divisions such as `(priceRON - budgetLei) / 50`),
machine-word hashing is modelled as `ℕ` arithmetic `% 2^32`, and
possibly-absent (`undefined`/`null`) values are modelled as `Option`.
Outbound HTTP, HTML regex extraction and URL parsing are platform
primitives: the embedded adapter functions consume the already-extracted
match/URL records and perform exactly the filtering, deduplication,
truncation and sorting the source performs on them.
-/

namespace PriceHunter

/-! ## JavaScript string primitives -/

/-- Tests whether `needle` is a leading segment of `hay` (char-list version of the test
`String.prototype.startsWith` performs at one position). -/
def leadsList : List Char → List Char → Bool
  | [], _ => true
  | _ :: _, [] => false
  | a :: as, b :: bs => a = b && leadsList as bs

/-- Models `String.prototype.includes` on char lists: `needle` occurs contiguously
somewhere in `hay`. -/
def occursInList (needle : List Char) : List Char → Bool
  | [] => leadsList needle []
  | b :: t => leadsList needle (b :: t) || occursInList needle t

/-- Models `hay.includes(needle)` from JavaScript. -/
def jsIncludes (hay needle : String) : Bool :=
  occursInList needle.toList hay.toList

/-- Models `String.prototype.toLowerCase`.  `Char.toLower` is exact on the ASCII
range, which covers every keyword the worker compares against. -/
def jsToLower (s : String) : String :=
  String.mk (s.toList.map Char.toLower)

/-- Replace every maximal run of characters satisfying `p` by the single
character `r` (the effect of `replace(/X+/g, r)`).  The `prev` flag records
whether the previous character belonged to a run. -/
def replaceRunsAux (p : Char → Bool) (r : Char) : Bool → List Char → List Char
  | _, [] => []
  | prev, c :: cs =>
    if p c then
      (if prev then replaceRunsAux p r true cs else r :: replaceRunsAux p r true cs)
    else c :: replaceRunsAux p r false cs

/-- Models `s.replace(/X+/g, r)` for a character class `X` given by `p`. -/
def replaceRuns (p : Char → Bool) (r : Char) (s : String) : String :=
  String.mk (replaceRunsAux p r false s.toList)

/-- Models `String.prototype.trim`: strip leading and trailing whitespace. -/
def jsTrim (s : String) : String :=
  String.mk
    (((s.toList.dropWhile Char.isWhitespace).reverse.dropWhile
        Char.isWhitespace).reverse)

/-- Models `normalizeText` from the source: `(s || "").replace(/\s+/g," ").trim()`. -/
def normalizeText (s : String) : String :=
  jsTrim (replaceRuns Char.isWhitespace ' ' s)

/-- JavaScript truthiness of an optional string (`undefined`, `null` and
`""` are falsy). -/
def truthyStr : Option String → Bool
  | none => false
  | some s => s ≠ ""

/-! ## JavaScript `Map` on string keys (insertion-ordered association list) -/

/-- Models `Map.prototype.get`. -/
def jsMapGet {α : Type} : List (String × α) → String → Option α
  | [], _ => none
  | (k, v) :: rest, key => if key = k then some v else jsMapGet rest key

/-- Models `Map.prototype.set`: updating an existing key keeps its position,
a fresh key is appended. -/
def jsMapSet {α : Type} (m : List (String × α)) (k : String) (v : α) :
    List (String × α) :=
  if (jsMapGet m k).isSome then
    m.map (fun kv => if kv.1 = k then (k, v) else kv)
  else m ++ [(k, v)]

/-- Models `[...map.values()]`. -/
def jsMapValues {α : Type} (m : List (String × α)) : List α :=
  m.map Prod.snd

/-! ## `clamp` (src lines 871-873): `Math.max(a, Math.min(b, v))` -/

def clamp (v a b : ℚ) : ℚ := max a (min b v)

theorem clamp_le (v a b : ℚ) (hab : a ≤ b) : clamp v a b ≤ b := by
  simp only [clamp, max_le_iff]
  exact ⟨hab, min_le_left _ _⟩

theorem le_clamp (v a b : ℚ) : a ≤ clamp v a b :=
  le_max_left _ _

/-! ## Data model

`Intent` is the normalized interpretation of the query (the shape the
intent oracle returns, also produced by the deterministic fallback in
`geminiIntent`).  `ScoredItem` is the record shape entering the ranker
(the output of the scoring oracle, or the deterministic fallback); only the
fields the deterministic core reads are modelled. -/

structure Intent where
  category : Option String
  budget_lei : Option ℚ
  size_min : Option ℚ
  size_max : Option ℚ
  condition_ok : Option (List String)
  must_have : List String
  must_exclude : List String
  search_query : String
  deriving DecidableEq, Repr

structure ScoredItem where
  link : String
  title : Option String
  canonical : Option String
  priceRON : Option ℚ
  overallScore : Option ℚ
  valueScore : Option ℚ
  sizeInch : Option ℚ
  condition : Option String
  defects : List String
  deriving DecidableEq, Repr

/-- A scored item with the deterministic `hardFit` attached
(`{...it, hardFit: hardFitScore(it, intent)}`). -/
structure RankedItem extends ScoredItem where
  hardFit : ℚ
  deriving DecidableEq, Repr

/-! ## Deterministic hard-fit scorer

The worker contains two versions of `hardFitScore`.  The v1 version
(src lines 286-312, used by the cached `/api/search` pipeline) has budget
penalty cap 35, no condition term, and defects cap 25.  The v3 version
(src lines 1246-1281) has budget cap 30, a `+5` condition-preference term,
and defects cap 20.  Each `if` block of the source is one term below; the
sequential `s += / s -=` accumulation is the sum of the terms. -/

/-- Budget term: `+20` if `priceRON <= budget_lei`, else
`-clamp((priceRON - budget_lei)/50, 0, cap)`; skipped unless both sides
are present (`!= null`). -/
def budgetTerm (cap : ℚ) (it : ScoredItem) (intent : Intent) : ℚ :=
  match intent.budget_lei, it.priceRON with
  | some b, some p => if p ≤ b then 20 else -(clamp ((p - b) / 50) 0 cap)
  | _, _ => 0

/-- Size floor term: `+5` if `sizeInch >= size_min` else `-10`; skipped
unless both present. -/
def sizeMinTerm (it : ScoredItem) (intent : Intent) : ℚ :=
  match intent.size_min, it.sizeInch with
  | some mn, some sz => if mn ≤ sz then 5 else -10
  | _, _ => 0

/-- Size ceiling term: `+5` if `sizeInch <= size_max` else `-10`; skipped
unless both present. -/
def sizeMaxTerm (it : ScoredItem) (intent : Intent) : ℚ :=
  match intent.size_max, it.sizeInch with
  | some mx, some sz => if sz ≤ mx then 5 else -10
  | _, _ => 0

/-- The candidate text the oled requirement is checked against:
`` `${it.title || ""} ${it.canonical || ""}`.toLowerCase() ``. -/
def oledText (it : ScoredItem) : String :=
  jsToLower ((it.title.getD "") ++ " " ++ (it.canonical.getD ""))

/-- Feature term: active when some `must_have` entry contains `"oled"`,
then `+10` if the candidate text contains `"oled"` else `-15`. -/
def oledTerm (it : ScoredItem) (intent : Intent) : ℚ :=
  if intent.must_have.any (fun x => jsIncludes (jsToLower x) "oled") then
    (if jsIncludes (oledText it) "oled" then 10 else -15)
  else 0

/-- Condition term (v3 only): guard `intent?.condition_ok && it.condition`
(a JS array is always truthy, an empty string is not), then `+5` when
`condition_ok.includes(condition)`. -/
def conditionTerm (it : ScoredItem) (intent : Intent) : ℚ :=
  match intent.condition_ok, it.condition with
  | some oks, some c => if c ≠ "" ∧ c ∈ oks then 5 else 0
  | _, _ => 0

/-- Defects term: active when `it.defects?.length` is truthy (non-empty),
then `-clamp(defects.length * 5, 0, cap)`. -/
def defectsTerm (cap : ℚ) (it : ScoredItem) : ℚ :=
  if it.defects.length ≠ 0 then -(clamp (it.defects.length * 5) 0 cap) else 0

/-- Models `hardFitScore` v1 (src lines 286-312). -/
def hardFitScore (it : ScoredItem) (intent : Intent) : ℚ :=
  budgetTerm 35 it intent + sizeMinTerm it intent + sizeMaxTerm it intent +
    oledTerm it intent + defectsTerm 25 it

/-- Models `hardFitScore` v3 (src lines 1246-1281). -/
def hardFitScoreV3 (it : ScoredItem) (intent : Intent) : ℚ :=
  budgetTerm 30 it intent + sizeMinTerm it intent + sizeMaxTerm it intent +
    oledTerm it intent + conditionTerm it intent + defectsTerm 20 it

/-! ## Ranker (src lines 243-252 and 1206-1217)

The sort comparator is
`(b.overallScore || 0) - (a.overallScore || 0)`, then
`(b.valueScore || 0) - (a.valueScore || 0)`, then
`(a.priceRON || 1e18) - (b.priceRON || 1e18)`.
`x || 0` maps `undefined` to `0` (and `0` to `0`), `x || 1e18` maps both a
missing price and a price of `0` to the sentinel `1e18`.
`Array.prototype.sort` is a stable sort ordered by the comparator;
`rankLE a b` below is exactly `comparator(a, b) ≤ 0`, and `insertionSort`
is a stable sort for `rankLE`, so both produce the same list. -/

def PRICE_SENTINEL : ℚ := 1000000000000000000

/-- Models `it.overallScore || 0`. -/
def ovrKey (it : RankedItem) : ℚ := it.overallScore.getD 0

/-- Models `it.valueScore || 0`. -/
def valKey (it : RankedItem) : ℚ := it.valueScore.getD 0

/-- Models `it.priceRON || 1e18` (price `0` is falsy in JS and hits the sentinel). -/
def priceKey (it : RankedItem) : ℚ :=
  match it.priceRON with
  | some p => if p = 0 then PRICE_SENTINEL else p
  | none => PRICE_SENTINEL

/-- Models `comparator(a, b) ≤ 0`: `a` sorts before (or ties with) `b`. -/
def rankLE (a b : RankedItem) : Prop :=
  ovrKey b < ovrKey a ∨
    (ovrKey a = ovrKey b ∧
      (valKey b < valKey a ∨ (valKey a = valKey b ∧ priceKey a ≤ priceKey b)))

instance : DecidableRel rankLE := fun a b => by
  unfold rankLE; exact inferInstance

instance : IsTotal RankedItem rankLE where
  total a b := by
    unfold rankLE
    rcases lt_trichotomy (ovrKey a) (ovrKey b) with h | h | h
    · exact Or.inr (Or.inl h)
    · rcases lt_trichotomy (valKey a) (valKey b) with h2 | h2 | h2
      · exact Or.inr (Or.inr ⟨h.symm, Or.inl h2⟩)
      · rcases le_total (priceKey a) (priceKey b) with h3 | h3
        · exact Or.inl (Or.inr ⟨h, Or.inr ⟨h2, h3⟩⟩)
        · exact Or.inr (Or.inr ⟨h.symm, Or.inr ⟨h2.symm, h3⟩⟩)
      · exact Or.inl (Or.inr ⟨h, Or.inl h2⟩)
    · exact Or.inl (Or.inl h)

instance : IsTrans RankedItem rankLE where
  trans a b c hab hbc := by
    unfold rankLE at *
    rcases hab with h1 | ⟨e1, h1⟩
    · rcases hbc with h2 | ⟨e2, _⟩
      · exact Or.inl (h2.trans h1)
      · exact Or.inl (e2 ▸ h1)
    · rcases hbc with h2 | ⟨e2, h2⟩
      · exact Or.inl (e1 ▸ h2)
      · refine Or.inr ⟨e1.trans e2, ?_⟩
        rcases h1 with h1 | ⟨f1, h1⟩
        · rcases h2 with h2 | ⟨f2, _⟩
          · exact Or.inl (h2.trans h1)
          · exact Or.inl (f2 ▸ h1)
        · rcases h2 with h2 | ⟨f2, h2⟩
          · exact Or.inl (f1 ▸ h2)
          · exact Or.inr ⟨f1.trans f2, h1.trans h2⟩

/-- Models `.sort(comparator).slice(0, 10)` from the pipeline. -/
def rankCandidates (l : List RankedItem) : List RankedItem :=
  (List.insertionSort rankLE l).take 10

/-- Models `{...it, hardFit: hardFitScore(it, intent)}` (v1 pipeline, line 244). -/
def attachHardFit (intent : Intent) (it : ScoredItem) : RankedItem :=
  ⟨it, hardFitScore it intent⟩

/-! ## Dedup-by-link stages

`dedupBest` is the Pricy dedup (src lines 347-351): keep, per link, the
fragment with the strictly lower price (the first one on ties), in
first-seen link order.  `dedupLast` is the OLX detail dedup
(src lines 481-484): `for (const x of items) byLink.set(x.link, x)` keeps
the last fragment for a link, whatever its price. -/

def dedupStep {α : Type} (link : α → String) (price : α → ℚ)
    (m : List (String × α)) (it : α) : List (String × α) :=
  match jsMapGet m (link it) with
  | none => jsMapSet m (link it) it
  | some prev => if price it < price prev then jsMapSet m (link it) it else m

def dedupBest {α : Type} (link : α → String) (price : α → ℚ)
    (items : List α) : List α :=
  jsMapValues (items.foldl (dedupStep link price) [])

def dedupLast {α : Type} (link : α → String) (items : List α) : List α :=
  jsMapValues (items.foldl (fun m it => jsMapSet m (link it) it) [])

/-! ## Source adapter: Pricy (src lines 318-363)

The regex scan, URL resolution and `parseInt` are platform primitives;
a `PricyMatch` is one raw regex match with its parsed price
(`none` models a `NaN` parse) and parsed URL (`none` models a `safeUrl`
failure).  The embedded function performs the validity filter of the source,
the 120-match scan cap, the cheapest-per-link dedup, the ascending price
sort and the `slice(0, 10)`. -/

structure UrlParts where
  hostname : String
  pathname : String
  deriving DecidableEq, Repr

structure PricyMatch where
  href : Option UrlParts
  priceRON : Option ℚ
  deriving DecidableEq, Repr

structure PricyItem where
  title : Option String
  host : String
  path : String
  priceRON : ℚ
  deriving DecidableEq, Repr

/-- The `Map` key `it.link` (`u.toString()`); the scheme is constant
(`https`) for every accepted pricy URL, so host ++ path determines it. -/
def PricyItem.link (it : PricyItem) : String := it.host ++ it.path

/-- Models `titleFromPricyPath` (src lines 356-363).  `decodeURIComponent` is a
platform primitive, modelled as the identity (exact for slugs without
percent-escapes). -/
def titleFromPricyPath (pathname : String) : Option String :=
  let parts := (pathname.splitOn "/").filter (· ≠ "")
  match parts.findIdx? (· = "ProductUrlId") with
  | none => none
  | some idx =>
    let slug := parts.getD (idx + 2) ""
    if slug = "" then none
    else some ((replaceRuns (fun c => c = '-' || c = '_') ' ' slug |> normalizeText))

/-- The body of the scan loop: skip non-finite or non-positive prices,
unparsable URLs, foreign hosts, and non-product paths. -/
def pricyValid (m : PricyMatch) : Option PricyItem :=
  match m.priceRON with
  | none => none
  | some p =>
    if p ≤ 0 then none
    else
      match m.href with
      | none => none
      | some u =>
        if (u.hostname = "pricy.ro" ∨ u.hostname = "www.pricy.ro") then
          if jsIncludes u.pathname "/ProductUrlId/" then
            some ⟨titleFromPricyPath u.pathname, u.hostname, u.pathname, p⟩
          else none
        else none

/-- Models the `searchPricy` item pipeline on the raw matches (success path). -/
def searchPricyItems (ms : List PricyMatch) : List PricyItem :=
  let items := (ms.filterMap pricyValid).take 120
  let deduped := dedupBest PricyItem.link PricyItem.priceRON items
  (List.insertionSort (fun a b : PricyItem => a.priceRON ≤ b.priceRON) deduped).take 10

instance : IsTotal PricyItem (fun a b : PricyItem => a.priceRON ≤ b.priceRON) where
  total _ _ := le_total _ _

instance : IsTrans PricyItem (fun a b : PricyItem => a.priceRON ≤ b.priceRON) where
  trans _ _ _ := le_trans

/-! ## Source adapter: Reselecto (src lines 369-401, v1)

A `Tile` is one regex match of the WooCommerce tile pattern, already
stripped/normalized (`normalizeText(stripHtml(m[2]))`) and with the
relative-URL resolution (a platform primitive) applied to `link`.
The loop pushes every valid tile and stops once 20 items are collected;
no deduplication is applied. -/

structure Tile where
  link : String
  title : String
  priceRON : Option ℚ
  deriving DecidableEq, Repr

structure ReselectoItem where
  title : String
  link : String
  priceRON : ℚ
  deriving DecidableEq, Repr

def tileValid (t : Tile) : Bool :=
  t.link ≠ "" && t.title ≠ "" && t.priceRON.isSome

/-- Models the `searchReselecto` item loop (v1 cap: `items.length < 20`). -/
def searchReselectoItems (tiles : List Tile) : List ReselectoItem :=
  ((tiles.filter tileValid).take 20).map
    (fun t => ⟨t.title, t.link, t.priceRON.getD 0⟩)

/-! ## OLX discovery (src lines 407-446) and detail fetch (448-485) -/

/-- One Google CSE result; `url` is the parse of `link`
(`none` when the `URL` constructor throws). -/
structure CseItem where
  title : Option String
  link : Option String
  snippet : Option String
  url : Option UrlParts
  deriving DecidableEq, Repr

structure OlxFrag where
  title : Option String
  link : String
  snippet : Option String
  deriving DecidableEq, Repr

/-- The discovery result filter: keep `olx.ro` listing URLs
(`hostname.endsWith("olx.ro")`, pathname containing `"/d/"`), then
`slice(0, 6)`. -/
def discoverOlxItems (results : List CseItem) : List OlxFrag :=
  ((results.filterMap fun it =>
    match it.link, it.url with
    | some l, some u =>
      if l ≠ "" then
        if u.hostname.endsWith "olx.ro" then
          if jsIncludes u.pathname "/d/" then
            some ⟨if truthyStr it.title then it.title else none, l,
                  if truthyStr it.snippet then it.snippet else none⟩
          else none
        else none
      else none
    | _, _ => none)).take 6

/-- One fetched OLX listing page after heuristic extraction
(title/meta/price extraction are regex primitives). -/
structure OlxDetail where
  title : Option String
  link : String
  priceRON : Option ℚ
  snippet : Option String
  rawText : Option String
  deriving DecidableEq, Repr

/-- The final dedup of `fetchListingDetails`:
`for (const x of items) byLink.set(x.link, x)` — last one wins. -/
def olxDetailsDedup (items : List OlxDetail) : List OlxDetail :=
  dedupLast OlxDetail.link items

/-! ## Merge / filter pipeline (src lines 184-280, v1)

A `Frag` is one merged candidate fragment; the `source` tag is set by the
merge step.  `AdapterResult` is the uniform adapter return shape
`{ items, error?, queryUrl? }`. -/

structure Frag where
  title : Option String
  link : String
  priceRON : Option ℚ
  snippet : Option String
  rawText : Option String
  source : Option String
  condition : Option String
  sizeInch : Option ℚ
  defects : Option (List String)
  deriving DecidableEq, Repr

structure AdapterResult where
  error : Option String
  items : List Frag
  queryUrl : Option String
  deriving DecidableEq, Repr

/-- Per-adapter status block:
`{ ok: !r.error, count: r.items?.length || 0, error: r.error || null }`. -/
structure SourceStatus where
  ok : Bool
  count : ℕ
  error : Option String
  deriving DecidableEq, Repr

def statusOf (r : AdapterResult) : SourceStatus :=
  ⟨!truthyStr r.error, r.items.length,
    if truthyStr r.error then r.error else none⟩

/-- Models `looksLikeAccessory` (src lines 842-861): case-insensitive substring
match of the title against the accessory keyword list. -/
def accessoryKeywords : List String :=
  ["husa", "husă", "case", "cover", "folie", "screen protector", "stand",
   "suport", "curea", "charger", "incarcator", "încărcător", "cablu",
   "remote", "telecomanda"]

def looksLikeAccessory (title : Option String) : Bool :=
  accessoryKeywords.any (fun k => jsIncludes (jsToLower (title.getD "")) k)

/-- Models `looksBadCondition` (src lines 822-840). -/
def badConditionKeywords : List String :=
  ["nu porneste", "nu pornește", "spart", "crapat", "crăpat", "ecran spart",
   "display broken", "screen broken", "pentru piese", "piese", "defect",
   "burn-in sever", "ars"]

def looksBadCondition (text : String) : Bool :=
  badConditionKeywords.any (fun k => jsIncludes (jsToLower text) k)

/-- One record of the output of the fact oracle (`geminiExtractListingFacts`);
a `none` field models a key absent from the returned JSON (which the
spread `{...c, ...facts}` then does not override). -/
structure FactRec where
  link : String
  condition : Option String
  sizeInch : Option ℚ
  defects : Option (List String)
  deriving DecidableEq, Repr

/-- Models `source` tagging: `(x) => ({ ...x, source: "pricy" })` etc. -/
def tagSource (s : String) (f : Frag) : Frag := { f with source := some s }

/-- Models `c?.link && (c.title || c.rawText || c.snippet)` (line 216). -/
def fragHasText (c : Frag) : Bool :=
  c.link ≠ "" && (truthyStr c.title || truthyStr c.rawText || truthyStr c.snippet)

/-- Accessory filter (lines 217-223): active when the category is truthy
and not `"accessory"`. -/
def keepNonAccessory (intent : Intent) (c : Frag) : Bool :=
  if truthyStr intent.category ∧ intent.category ≠ some "accessory" then
    !looksLikeAccessory c.title
  else true

/-- Bad-condition blob (line 224):
`` `${c.title || ""} ${c.rawText || ""} ${c.snippet || ""}` ``. -/
def fragBlob (c : Frag) : String :=
  (c.title.getD "") ++ " " ++ (c.rawText.getD "") ++ " " ++ (c.snippet.getD "")

/-- Exclusion filter (lines 227-233): drop fragments whose
`` `${title} ${rawText}` `` contains any lowercased `must_exclude` entry. -/
def keepNotExcluded (intent : Intent) (c : Frag) : Bool :=
  let t := jsToLower ((c.title.getD "") ++ " " ++ (c.rawText.getD ""))
  !(intent.must_exclude.any (fun k => jsIncludes t (jsToLower k)))

/-- The fact merge-back `{...c, ...f}`: the keys present in the fact
record override those of the candidate (the fact `link` equals the map key `c.link`). -/
def mergeFact (c : Frag) (f : FactRec) : Frag :=
  { c with
    link := f.link,
    condition := if f.condition.isSome then f.condition else c.condition,
    sizeInch := if f.sizeInch.isSome then f.sizeInch else c.sizeInch,
    defects := if f.defects.isSome then f.defects else c.defects }

/-- The externally-visible result assembled at src lines 265-279; only the
fields the claims mention are modelled. -/
structure ResultM where
  q : String
  top : List RankedItem
  pricyStatus : SourceStatus
  reselectoStatus : SourceStatus
  olxStatus : SourceStatus
  deriving DecidableEq, Repr

/-- Models `runSearchPipeline` (v1, src lines 184-280) as a function of the three
adapter results and the two oracle stages.  `factsFn` stands for
`geminiExtractListingFacts` (its output is merged back by link; the merge
only rewrites enrichment fields, which the subsequent stages read through
`scoreFn`), and `scoreFn` for `geminiScoreCandidates` (oracle or its
deterministic fallback) applied to the first 20 filtered candidates. -/
def runSearchPipelineM (input_q : String) (intent : Intent)
    (pricy reselecto olxDetails : AdapterResult)
    (factsFn : List Frag → List FactRec)
    (scoreFn : List Frag → List ScoredItem) : ResultM :=
  let candidates :=
    pricy.items.map (tagSource "pricy") ++
      reselecto.items.map (tagSource "reselecto") ++
      olxDetails.items.map (tagSource "olx")
  let candidates := candidates.filter fragHasText
  let candidates := candidates.filter (keepNonAccessory intent)
  let candidates := candidates.filter (fun c => !looksBadCondition (fragBlob c))
  let candidates :=
    if intent.must_exclude.length ≠ 0 then
      candidates.filter (keepNotExcluded intent)
    else candidates
  let facts := factsFn (candidates.take 12)
  let byLink := facts.foldl (fun m x => jsMapSet m x.link x) []
  let candidates := candidates.map (fun c =>
    match jsMapGet byLink c.link with
    | some f => mergeFact c f
    | none => c)
  let scored := scoreFn (candidates.take 20)
  let ranked := rankCandidates (scored.map (attachHardFit intent))
  { q := input_q, top := ranked,
    pricyStatus := statusOf pricy,
    reselectoStatus := statusOf reselecto,
    olxStatus := statusOf olxDetails }

/-- HTTP status of the `/api/search` route as a function of the raw `q`
parameter (src lines 50-67): `400` when the trimmed `q` is empty,
otherwise the pipeline result is returned with status `200`. -/
def apiSearchStatus (q : String) : ℕ :=
  if jsTrim q = "" then 400 else 200

/-! ## Result cache (src lines 159-182)

`runSearchWithCacheM` models one `runSearchWithCache` call for a fixed
cache key: it takes the entry currently stored under the key (`none` when
absent), the current epoch-ms time, and the value the pipeline would
produce, and returns the served payload (result, `cache.hit`,
`cache.ageSec`) together with the entry stored under the key afterwards.
The guard is `cached?.ts && Date.now() - cached.ts < 20*60*1000`
(a stored `ts` of `0` is falsy). -/

def TTL_MS : ℕ := 20 * 60 * 1000

structure CacheEntryM (R : Type) where
  ts : ℕ
  result : R
  deriving DecidableEq, Repr

def runSearchWithCacheM {R : Type} (cached : Option (CacheEntryM R))
    (now : ℕ) (fresh : R) : (R × Bool × Option ℕ) × Option (CacheEntryM R) :=
  match cached with
  | some e =>
    if e.ts ≠ 0 ∧ now - e.ts < TTL_MS then
      ((e.result, true, some ((now - e.ts) / 1000)), some e)
    else ((fresh, false, none), some ⟨now, fresh⟩)
  | none => ((fresh, false, none), some ⟨now, fresh⟩)

/-! ## Cache key derivation (src lines 928-945)

`stableStringify` serializes with sorted object keys; `stableKeyFromObj`
hashes the serialization with FNV-1a over UTF-16 code units
(`charCodeAt`) in 32-bit arithmetic and renders `"k:" + hex`.  The
canonical key object built at lines 162-169 is one flat object whose
values are primitives or arrays, so objects are modelled as one level of
`String × JsAtom` fields over atomic JSON values. -/

inductive JsAtom where
  | null : JsAtom
  | boolV (b : Bool) : JsAtom
  | num (n : Int) : JsAtom
  | str (s : String) : JsAtom
  | arr (xs : List JsAtom) : JsAtom
  deriving Repr

/-- Models `JSON.stringify` escaping for one character of a string literal. -/
def jsonEscapeChar (c : Char) : String :=
  if c = '"' then "\\\""
  else if c = '\\' then "\\\\"
  else if c = '\n' then "\\n"
  else if c = '\r' then "\\r"
  else if c = '\t' then "\\t"
  else if c.toNat < 16 then
    "\\u000" ++ String.mk (Nat.toDigits 16 c.toNat)
  else if c.toNat < 32 then
    "\\u00" ++ String.mk (Nat.toDigits 16 c.toNat)
  else String.singleton c

/-- Models `JSON.stringify` of a string. -/
def jsonQuote (s : String) : String :=
  "\"" ++ String.join (s.toList.map jsonEscapeChar) ++ "\""

/-- Models `stableStringify` on a non-object value (the `JSON.stringify` and
array branches of src lines 940-944). -/
def stringifyAtom : JsAtom → String
  | JsAtom.null => "null"
  | JsAtom.boolV b => cond b "true" "false"
  | JsAtom.num n => toString n
  | JsAtom.str s => jsonQuote s
  | JsAtom.arr xs =>
    "[" ++ String.intercalate "," (xs.attach.map (fun x => stringifyAtom x.1)) ++ "]"
termination_by a => sizeOf a
decreasing_by
  simp_wf
  have := List.sizeOf_lt_of_mem x.2
  omega

/-- Models `x[k]` on the object. -/
def jsGet (fields : List (String × JsAtom)) (k : String) : JsAtom :=
  (jsMapGet fields k).getD JsAtom.null

/-- Models `stableStringify` on an object (src lines 943-944):
`Object.keys(x).sort()` then serialize each `key: value` pair. -/
def stableStringify (fields : List (String × JsAtom)) : String :=
  "\x7b" ++
    String.intercalate ","
      ((List.insertionSort (· ≤ ·) (fields.map Prod.fst)).map
        (fun k => jsonQuote k ++ ":" ++ stringifyAtom (jsGet fields k))) ++
    "\x7d"

/-- The UTF-16 code units of a character (`charCodeAt` iterates these). -/
def charUtf16 (c : Char) : List ℕ :=
  if c.toNat < 65536 then [c.toNat]
  else [55296 + (c.toNat - 65536) / 1024, 56320 + (c.toNat - 65536) % 1024]

def utf16Units (s : String) : List ℕ :=
  (s.toList.map charUtf16).flatten

/-- One FNV-1a round: `h ^= code; h = Math.imul(h, 16777619)`, kept as the
unsigned 32-bit value (`h >>> 0`). -/
def fnv1aStep (h u : ℕ) : ℕ :=
  ((Nat.xor h u) * 16777619) % 4294967296

def fnv1a (units : List ℕ) : ℕ :=
  units.foldl fnv1aStep 2166136261

/-- Models `(h >>> 0).toString(16)`. -/
def toHexString (n : ℕ) : String :=
  String.mk (Nat.toDigits 16 n)

/-- Models `stableKeyFromObj` (src lines 928-938). -/
def stableKeyFromObj (fields : List (String × JsAtom)) : String :=
  "k:" ++ toHexString (fnv1a (utf16Units (stableStringify fields)))

/-! # Theorems -/

/-! ## Term bounds for the hard-fit scorer -/

theorem budgetTerm_mem (cap : ℚ) (hc : 0 ≤ cap) (it : ScoredItem) (i : Intent) :
    -cap ≤ budgetTerm cap it i ∧ budgetTerm cap it i ≤ 20 := by
  unfold budgetTerm
  rcases hb : i.budget_lei with _ | b <;> rcases hp : it.priceRON with _ | p <;>
    simp only
  · constructor <;> linarith
  · constructor <;> linarith
  · constructor <;> linarith
  · split_ifs with h
    · constructor <;> linarith
    · have h1 := clamp_le ((p - b) / 50) 0 cap hc
      have h2 := le_clamp ((p - b) / 50) 0 cap
      constructor <;> linarith

theorem sizeMinTerm_mem (it : ScoredItem) (i : Intent) :
    -10 ≤ sizeMinTerm it i ∧ sizeMinTerm it i ≤ 5 := by
  unfold sizeMinTerm
  rcases i.size_min with _ | mn <;> rcases it.sizeInch with _ | sz <;> simp only
  · constructor <;> norm_num
  · constructor <;> norm_num
  · constructor <;> norm_num
  · split_ifs <;> constructor <;> norm_num

theorem sizeMaxTerm_mem (it : ScoredItem) (i : Intent) :
    -10 ≤ sizeMaxTerm it i ∧ sizeMaxTerm it i ≤ 5 := by
  unfold sizeMaxTerm
  rcases i.size_max with _ | mx <;> rcases it.sizeInch with _ | sz <;> simp only
  · constructor <;> norm_num
  · constructor <;> norm_num
  · constructor <;> norm_num
  · split_ifs <;> constructor <;> norm_num

theorem oledTerm_mem (it : ScoredItem) (i : Intent) :
    -15 ≤ oledTerm it i ∧ oledTerm it i ≤ 10 := by
  unfold oledTerm
  split_ifs <;> constructor <;> norm_num

theorem conditionTerm_mem (it : ScoredItem) (i : Intent) :
    0 ≤ conditionTerm it i ∧ conditionTerm it i ≤ 5 := by
  unfold conditionTerm
  rcases i.condition_ok with _ | oks <;> rcases it.condition with _ | c <;> simp only
  · constructor <;> norm_num
  · constructor <;> norm_num
  · constructor <;> norm_num
  · split_ifs <;> constructor <;> norm_num

theorem defectsTerm_mem (cap : ℚ) (hc : 0 ≤ cap) (it : ScoredItem) :
    -cap ≤ defectsTerm cap it ∧ defectsTerm cap it ≤ 0 := by
  unfold defectsTerm
  split_ifs with h
  · have h1 := clamp_le ((it.defects.length : ℚ) * 5) 0 cap hc
    have h2 := le_clamp ((it.defects.length : ℚ) * 5) 0 cap
    constructor <;> linarith
  · constructor <;> linarith

/-- C9: for every candidate record and every intent, the v1
`hardFitScore` (src lines 286-312) lies in the closed interval
`[-95, 40]`: the attainable maximum is `20 + 5 + 5 + 10 = 40` and the
minimum is `-35 - 10 - 10 - 15 - 25 = -95`. -/
theorem C9_hardFitScore_bounds (it : ScoredItem) (intent : Intent) :
    -95 ≤ hardFitScore it intent ∧ hardFitScore it intent ≤ 40 := by
  obtain ⟨b1, b2⟩ := budgetTerm_mem 35 (by norm_num) it intent
  obtain ⟨c1, c2⟩ := sizeMinTerm_mem it intent
  obtain ⟨d1, d2⟩ := sizeMaxTerm_mem it intent
  obtain ⟨e1, e2⟩ := oledTerm_mem it intent
  obtain ⟨f1, f2⟩ := defectsTerm_mem 25 (by norm_num) it
  unfold hardFitScore
  constructor <;> linarith

/-! ## C5: the §8 scenario for the hard-fit scorer -/

/-- The scenario intent: budget 4000 lei, size floor 65, must-have
`["oled"]`, no size ceiling, no matching condition. -/
def intentC5 : Intent :=
  { category := some "tv", budget_lei := some 4000, size_min := some 65,
    size_max := none, condition_ok := some ["new"], must_have := ["oled"],
    must_exclude := [], search_query := "oled tv 65 inch sub 4000 lei" }

/-- Candidate A: 3800 RON, 65 inch, title contains "OLED". -/
def candC5A : ScoredItem :=
  { link := "https://www.pricy.ro/x/ProductUrlId/1/a", title := some "LG OLED 65 evo",
    canonical := none, priceRON := some 3800, overallScore := some 50,
    valueScore := some 50, sizeInch := some 65, condition := some "used",
    defects := [] }

/-- Candidate B: identical but 4500 RON. -/
def candC5B : ScoredItem :=
  { candC5A with
    link := "https://www.pricy.ro/x/ProductUrlId/2/b",
    priceRON := some 4500 }

/-- C5: on the §8 scenario, candidate A scores
`20 (budget) + 5 (size) + 10 (oled) = 35` and candidate B scores
`-clamp((4500-4000)/50, 0, 35) + 5 + 10 = -10 + 15 = 5`. -/
theorem C5_scenario_scores :
    hardFitScore candC5A intentC5 = 35 ∧ hardFitScore candC5B intentC5 = 5 := by
  have h0 : intentC5.must_have.any (fun x => jsIncludes (jsToLower x) "oled") = true := by
    decide
  have hA : jsIncludes (oledText candC5A) "oled" = true := by decide
  have hB : jsIncludes (oledText candC5B) "oled" = true := by decide
  have eA1 : budgetTerm 35 candC5A intentC5 = 20 := by
    norm_num [budgetTerm, candC5A, intentC5]
  have eA2 : sizeMinTerm candC5A intentC5 = 5 := by
    norm_num [sizeMinTerm, candC5A, intentC5]
  have eA3 : sizeMaxTerm candC5A intentC5 = 0 := by
    norm_num [sizeMaxTerm, candC5A, intentC5]
  have eA4 : oledTerm candC5A intentC5 = 10 := by
    rw [oledTerm, if_pos h0, if_pos hA]
  have eA5 : defectsTerm 25 candC5A = 0 := by
    norm_num [defectsTerm, candC5A]
  have eB1 : budgetTerm 35 candC5B intentC5 = -10 := by
    norm_num [budgetTerm, candC5B, candC5A, intentC5, clamp]
  have eB2 : sizeMinTerm candC5B intentC5 = 5 := by
    norm_num [sizeMinTerm, candC5B, candC5A, intentC5]
  have eB3 : sizeMaxTerm candC5B intentC5 = 0 := by
    norm_num [sizeMaxTerm, candC5B, candC5A, intentC5]
  have eB4 : oledTerm candC5B intentC5 = 10 := by
    rw [oledTerm, if_pos h0, if_pos hB]
  have eB5 : defectsTerm 25 candC5B = 0 := by
    norm_num [defectsTerm, candC5B, candC5A]
  unfold hardFitScore
  rw [eA1, eA2, eA3, eA4, eA5, eB1, eB2, eB3, eB4, eB5]
  norm_num

/-! ## C4: the +5 condition-preference term

The claim cites both `hardFitScore` versions, but only the v3 version
(src lines 1273-1275) has the condition term; the v1 version
(src lines 286-312, the one the cached `/api/search` pipeline calls)
reads no condition field at all, so a candidate whose condition is in
`conditionOk` scores exactly the same as the identical candidate whose
condition is not. -/

/-- An intent accepting condition `"new"`. -/
def intentC4 : Intent :=
  { category := some "tv", budget_lei := some 4000, size_min := none,
    size_max := none, condition_ok := some ["new"], must_have := [],
    must_exclude := [], search_query := "tv" }

/-- A candidate under budget whose condition is `"new"` (in
`conditionOk`). -/
def candC4 : ScoredItem :=
  { link := "https://www.reselecto.ro/p", title := some "Smart TV 55",
    canonical := none, priceRON := some 3500, overallScore := some 50,
    valueScore := some 50, sizeInch := none, condition := some "new",
    defects := [] }

/-- C4 counterexample: in the v1 scorer a candidate with
`condition = "new" ∈ conditionOk` scores exactly the same as the identical
candidate with `condition = "used" ∉ conditionOk` — there is no `+5`
condition-preference term. -/
theorem C4_cex_v1_ignores_condition :
    candC4.condition = some "new" ∧ intentC4.condition_ok = some ["new"] ∧
    "new" ∈ ["new"] ∧ ¬ "used" ∈ ["new"] ∧
    hardFitScore candC4 intentC4 =
      hardFitScore { candC4 with condition := some "used" } intentC4 :=
  ⟨rfl, rfl, by decide, by decide, rfl⟩

/-- C4 amended: the `+5` condition-preference bonus exists in the v3
scorer (src lines 1273-1275): when `condition_ok` is present,
`it.condition` is a truthy member of it, and the condition of the
comparison candidate is absent, empty, or not in `condition_ok`, the v3 score is
exactly 5 points higher, all other terms being equal. -/
theorem C4_v3_condition_bonus (it : ScoredItem) (intent : Intent)
    (oks : List String) (c : String) (c' : Option String)
    (hok : intent.condition_ok = some oks) (hc : it.condition = some c)
    (hmem : c ∈ oks) (hne : c ≠ "")
    (h' : ∀ s, c' = some s → s ∉ oks ∨ s = "") :
    hardFitScoreV3 it intent =
      hardFitScoreV3 { it with condition := c' } intent + 5 := by
  have h1 : conditionTerm it intent = 5 := by
    simp [conditionTerm, hok, hc, hne, hmem]
  have h2 : conditionTerm { it with condition := c' } intent = 0 := by
    rcases c' with _ | s
    · simp [conditionTerm, hok]
    · rcases h' s rfl with h | h
      · simp [conditionTerm, hok, h]
      · simp [conditionTerm, hok, h]
  have e1 : budgetTerm 30 { it with condition := c' } intent =
      budgetTerm 30 it intent := rfl
  have e2 : sizeMinTerm { it with condition := c' } intent =
      sizeMinTerm it intent := rfl
  have e3 : sizeMaxTerm { it with condition := c' } intent =
      sizeMaxTerm it intent := rfl
  have e4 : oledTerm { it with condition := c' } intent =
      oledTerm it intent := rfl
  have e5 : defectsTerm 20 { it with condition := c' } =
      defectsTerm 20 it := rfl
  unfold hardFitScoreV3
  rw [h1, h2, e1, e2, e3, e4, e5]
  ring

/-- Witness for `C4_v3_condition_bonus` at the concrete C4 scenario. -/
theorem C4_v3_condition_bonus_witness :
    hardFitScoreV3 candC4 intentC4 =
      hardFitScoreV3 { candC4 with condition := some "used" } intentC4 + 5 :=
  C4_v3_condition_bonus candC4 intentC4 ["new"] "new" (some "used") rfl rfl
    (by decide) (by decide)
    (fun s hs => Or.inl (by cases hs; decide))

/-! ## C2: cache TTL -/

/-- C2: a cache entry written at epoch-ms time `T > 0` and read at
`T + Δ` is served as a hit with `ageSec = ⌊Δ/1000⌋` when `Δ < 20 min`,
and treated as a miss when `Δ ≥ 20 min`: the pipeline result is returned
(no error) and the entry is overwritten with the fresh timestamp. -/
theorem C2_cache_ttl {R : Type} (stored fresh : R) (T Δ : ℕ) (hT : 0 < T) :
    (Δ < TTL_MS →
      runSearchWithCacheM (some ⟨T, stored⟩) (T + Δ) fresh =
        ((stored, true, some (Δ / 1000)), some ⟨T, stored⟩)) ∧
    (TTL_MS ≤ Δ →
      runSearchWithCacheM (some ⟨T, stored⟩) (T + Δ) fresh =
        ((fresh, false, none), some ⟨T + Δ, fresh⟩)) := by
  have hsub : T + Δ - T = Δ := by omega
  constructor
  · intro h
    have hcond : T ≠ 0 ∧ T + Δ - T < TTL_MS := ⟨by omega, by omega⟩
    simp only [runSearchWithCacheM]
    rw [if_pos hcond, hsub]
  · intro h
    have hcond : ¬ (T ≠ 0 ∧ T + Δ - T < TTL_MS) := by
      rintro ⟨-, hlt⟩; omega
    simp only [runSearchWithCacheM]
    rw [if_neg hcond]

/-- Witness for `C2_cache_ttl`: a hit 5 s after the write and a miss
exactly at the 20-minute TTL. -/
theorem C2_cache_ttl_witness :
    runSearchWithCacheM (some ⟨1000, (1 : ℕ)⟩) (1000 + 5000) 2 =
        ((1, true, some 5), some ⟨1000, 1⟩) ∧
    runSearchWithCacheM (some ⟨1000, (1 : ℕ)⟩) (1000 + 1200000) 2 =
        ((2, false, none), some ⟨1000 + 1200000, 2⟩) :=
  ⟨(C2_cache_ttl 1 2 1000 5000 (by decide)).1 (by decide),
   (C2_cache_ttl 1 2 1000 1200000 (by decide)).2 (by decide)⟩

/-! ## C3: ranker order

The comparator maps a missing price to the sentinel `1e18` with
`priceRON || 1e18` — and, `0` being falsy, it maps a price of `0` to the
sentinel too.  So the letter of the claim fails: two candidates with equal
scores and known prices `0 < 5` are ranked with the price-0 one *last*. -/

/-- Equal-score candidate with known price 0. -/
def rankP0 : RankedItem :=
  ⟨{ candC5A with priceRON := some 0 }, 0⟩

/-- Equal-score candidate with known price 5. -/
def rankP5 : RankedItem :=
  ⟨{ candC5B with priceRON := some 5 }, 0⟩

/-- C3 counterexample: `rankP0` and `rankP5` have equal `overallScore` and
equal `valueScore`, `rankP0.priceRON = 0 < 5 = rankP5.priceRON`, yet the
ranker puts `rankP5` first — the candidate with the *lower* known price
ranks last, because `0 || 1e18` hits the missing-price sentinel. -/
theorem C3_cex_zero_price_ranks_last :
    rankP0.overallScore = rankP5.overallScore ∧
    rankP0.valueScore = rankP5.valueScore ∧
    rankP0.priceRON = some 0 ∧ rankP5.priceRON = some 5 ∧ (0 : ℚ) < 5 ∧
    rankCandidates [rankP0, rankP5] = [rankP5, rankP0] := by
  refine ⟨rfl, rfl, rfl, rfl, by norm_num, ?_⟩
  norm_num [rankCandidates, List.insertionSort, List.orderedInsert, rankLE,
    ovrKey, valKey, priceKey, rankP0, rankP5, candC5A, candC5B, PRICE_SENTINEL]

/-- C3 amended: `rankCandidates` returns at most 10 items, ordered by the
comparator relation `rankLE` (overallScore descending, then valueScore
descending, then ascending `priceRON || 1e18`, so that a price that is
missing — or `0`, or at least `1e18` — sorts via the sentinel after every
price below `1e18`), and it is the truncation of a permutation of its
input in which every dropped item sorts after every kept one. -/
theorem C3_ranker_sorted (l : List RankedItem) :
    (rankCandidates l).length ≤ 10 ∧
    List.Pairwise rankLE (rankCandidates l) ∧
    ∃ dropped, ((rankCandidates l) ++ dropped).Perm l ∧
      ∀ a ∈ rankCandidates l, ∀ b ∈ dropped, rankLE a b := by
  refine ⟨?_, ?_, (List.insertionSort rankLE l).drop 10, ?_, ?_⟩
  · simp only [rankCandidates, List.length_take]
    omega
  · exact List.Pairwise.sublist (List.take_sublist _ _)
      (List.sorted_insertionSort rankLE l)
  · rw [rankCandidates, List.take_append_drop]
    exact List.perm_insertionSort rankLE l
  · have hs := List.sorted_insertionSort rankLE l
    have hp := (List.take_append_drop 10 (List.insertionSort rankLE l)) ▸ hs
    exact (List.pairwise_append.mp hp).2.2

/-- Witness for `C3_ranker_sorted` on the two-candidate list of the
counterexample. -/
theorem C3_ranker_sorted_witness :
    (rankCandidates [rankP0, rankP5]).length ≤ 10 ∧
    List.Pairwise rankLE (rankCandidates [rankP0, rankP5]) :=
  ⟨(C3_ranker_sorted [rankP0, rankP5]).1, (C3_ranker_sorted [rankP0, rankP5]).2.1⟩

/-! ## C8: per-adapter item caps

The v1 Reselecto loop (src line 386) runs `while (m = ...) && items.length
< 20`: its cap is 20, not 15 (only the v3 variant at line 1386 caps at
15).  Pricy slices to 10 (line 353) and OLX discovery slices to 6
(line 445). -/

/-- A valid Reselecto tile. -/
def tileW : Tile :=
  ⟨"https://www.reselecto.ro/produs/tv-oled-55", "TV OLED 55 resigilat",
   some 3000⟩

/-- C8 counterexample: sixteen valid tiles make the v1 Reselecto adapter
return 16 items, more than the claimed cap of 15. -/
theorem C8_cex_reselecto_returns_16 :
    (searchReselectoItems (List.replicate 16 tileW)).length = 16 ∧
    ¬ (searchReselectoItems (List.replicate 16 tileW)).length ≤ 15 := by
  constructor <;> decide

/-- C8 amended: the per-call caps are 10 for Pricy, 20 for the v1
Reselecto adapter (15 in the v3 variant), and 6 for OLX discovery. -/
theorem C8_adapter_caps (ms : List PricyMatch) (tiles : List Tile)
    (cse : List CseItem) :
    (searchPricyItems ms).length ≤ 10 ∧
    (searchReselectoItems tiles).length ≤ 20 ∧
    (discoverOlxItems cse).length ≤ 6 := by
  refine ⟨?_, ?_, ?_⟩
  · simp only [searchPricyItems, List.length_take]
    omega
  · simp only [searchReselectoItems, List.length_map, List.length_take]
    omega
  · simp only [discoverOlxItems, List.length_take]
    omega

/-- Witness for `C8_adapter_caps` on the counterexample inputs. -/
theorem C8_adapter_caps_witness :
    (searchPricyItems []).length ≤ 10 ∧
    (searchReselectoItems (List.replicate 16 tileW)).length ≤ 20 ∧
    (discoverOlxItems []).length ≤ 6 :=
  C8_adapter_caps [] (List.replicate 16 tileW) []

/-! ## C1: cache-key determinism -/

/-- Lookup is invariant under permutation of an association list with
distinct keys. -/
theorem jsMapGet_perm {α : Type} {f₁ f₂ : List (String × α)} (hp : f₁.Perm f₂) :
    ∀ k : String, (f₁.map Prod.fst).Nodup → jsMapGet f₁ k = jsMapGet f₂ k := by
  induction hp with
  | nil => intro k _; rfl
  | cons x h ih =>
    intro k hn
    rcases x with ⟨k0, v0⟩
    simp only [List.map_cons, List.nodup_cons] at hn
    by_cases hk : k = k0
    · simp [jsMapGet, hk]
    · simp only [jsMapGet, if_neg hk]
      exact ih k hn.2
  | swap x y l =>
    intro k hn
    rcases x with ⟨kx, vx⟩
    rcases y with ⟨ky, vy⟩
    simp only [List.map_cons, List.nodup_cons, List.mem_cons] at hn
    have hxy : ky ≠ kx := fun h => hn.1 (Or.inl h)
    by_cases h1 : k = ky <;> by_cases h2 : k = kx
    · exact absurd (h1 ▸ h2) hxy
    · simp [jsMapGet, h1, h2, hxy]
    · simp [jsMapGet, h1, h2, Ne.symm hxy]
    · simp [jsMapGet, h1, h2]
  | trans h₁ h₂ ih₁ ih₂ =>
    intro k hn
    exact (ih₁ k hn).trans (ih₂ k (((h₁.map Prod.fst).nodup_iff).mp hn))

/-- Shows that `stableStringify` is invariant under reordering of the object
fields (for a JS object the keys are necessarily distinct). -/
theorem stableStringify_perm (f₁ f₂ : List (String × JsAtom))
    (hp : f₁.Perm f₂) (hn : (f₁.map Prod.fst).Nodup) :
    stableStringify f₁ = stableStringify f₂ := by
  have hkeys : List.insertionSort (· ≤ ·) (f₁.map Prod.fst) =
      List.insertionSort (· ≤ ·) (f₂.map Prod.fst) := by
    refine List.eq_of_perm_of_sorted ?_ (List.sorted_insertionSort _ _)
      (List.sorted_insertionSort _ _)
    exact ((List.perm_insertionSort _ _).trans (hp.map Prod.fst)).trans
      (List.perm_insertionSort (· ≤ ·) (f₂.map Prod.fst)).symm
  have hget : ∀ k, jsGet f₁ k = jsGet f₂ k := by
    intro k
    unfold jsGet
    rw [jsMapGet_perm hp k hn]
  have hmap : (List.insertionSort (· ≤ ·) (f₂.map Prod.fst)).map
        (fun k => jsonQuote k ++ ":" ++ stringifyAtom (jsGet f₁ k)) =
      (List.insertionSort (· ≤ ·) (f₂.map Prod.fst)).map
        (fun k => jsonQuote k ++ ":" ++ stringifyAtom (jsGet f₂ k)) :=
    List.map_congr_left (fun k _ => by rw [hget k])
  unfold stableStringify
  rw [hkeys, hmap]

/-- C1: two canonical key objects with the same field/value set, in any
insertion order (JS object keys are distinct), produce the identical
`stableStringify` serialization, hence the identical FNV-1a hash and the
identical `"k:"`-prefixed cache key. -/
theorem C1_stable_key_deterministic (f₁ f₂ : List (String × JsAtom))
    (hp : f₁.Perm f₂) (hn : (f₁.map Prod.fst).Nodup) :
    stableKeyFromObj f₁ = stableKeyFromObj f₂ := by
  unfold stableKeyFromObj
  rw [stableStringify_perm f₁ f₂ hp hn]

/-- The canonical cache-key object of the C5 scenario
(src lines 162-169). -/
def keyFields : List (String × JsAtom) :=
  [("q", JsAtom.str "oled tv 65 inch sub 4000 lei"),
   ("budget", JsAtom.num 4000), ("sizeMin", JsAtom.num 65),
   ("sizeMax", JsAtom.null), ("category", JsAtom.str "tv"),
   ("condition_ok", JsAtom.arr [JsAtom.str "new", JsAtom.str "resealed"])]

/-- Witness for `C1_stable_key_deterministic`: the concrete canonical key
object against its reversal. -/
theorem C1_stable_key_deterministic_witness :
    stableKeyFromObj keyFields = stableKeyFromObj keyFields.reverse :=
  C1_stable_key_deterministic keyFields keyFields.reverse
    (List.reverse_perm keyFields).symm (by decide)

/-! ## C6: dedup-by-link

Supporting lemmas about the `Map`-backed fold of `dedupBest`. -/

theorem jsMapGet_eq_none {α : Type} :
    ∀ {m : List (String × α)} {k : String}, jsMapGet m k = none →
      ∀ kv ∈ m, kv.1 ≠ k := by
  intro m
  induction m with
  | nil => intro k _ kv hkv; simp at hkv
  | cons hd tl ih =>
    intro k h kv hkv
    rcases hd with ⟨k0, v0⟩
    by_cases hk : k = k0
    · simp [jsMapGet, hk] at h
    · simp only [jsMapGet, if_neg hk] at h
      rcases List.mem_cons.mp hkv with rfl | hkv
      · exact fun hh => hk hh.symm
      · exact ih h kv hkv

theorem jsMapGet_eq_some_mem {α : Type} :
    ∀ {m : List (String × α)} {k : String} {v : α},
      jsMapGet m k = some v → (k, v) ∈ m := by
  intro m
  induction m with
  | nil => intro k v h; simp [jsMapGet] at h
  | cons hd tl ih =>
    intro k v h
    rcases hd with ⟨k0, v0⟩
    by_cases hk : k = k0
    · subst hk
      have h' : v0 = v := by simpa [jsMapGet] using h
      subst h'
      exact List.mem_cons_self _ _
    · simp only [jsMapGet, if_neg hk] at h
      exact List.mem_cons_of_mem _ (ih h)

/-- With distinct keys, membership determines the lookup result. -/
theorem jsMapGet_of_mem {α : Type} :
    ∀ {m : List (String × α)}, (m.map Prod.fst).Nodup →
      ∀ {k : String} {v : α}, (k, v) ∈ m → jsMapGet m k = some v := by
  intro m
  induction m with
  | nil => intro _ k v h; simp at h
  | cons hd tl ih =>
    intro hn k v h
    rcases hd with ⟨k0, v0⟩
    simp only [List.map_cons, List.nodup_cons] at hn
    rcases List.mem_cons.mp h with h | h
    · have hk : k = k0 := congrArg Prod.fst h
      have hv : v = v0 := congrArg Prod.snd h
      simp [jsMapGet, hk, hv]
    · have hk : k ≠ k0 := by
        intro he
        exact hn.1 (he ▸ List.mem_map.mpr ⟨(k, v), h, rfl⟩)
      simp only [jsMapGet, if_neg hk]
      exact ih hn.2 h

/-- In an association list with distinct keys, a key determines its
value. -/
theorem assoc_keys_unique {α : Type} {m : List (String × α)}
    (hn : (m.map Prod.fst).Nodup) {k : String} {a b : α}
    (ha : (k, a) ∈ m) (hb : (k, b) ∈ m) : a = b := by
  have g1 := jsMapGet_of_mem hn ha
  have g2 := jsMapGet_of_mem hn hb
  rw [g1] at g2
  exact Option.some.inj g2

theorem jsMapSet_of_get_none {α : Type} {m : List (String × α)} {k : String}
    (h : jsMapGet m k = none) (v : α) : jsMapSet m k v = m ++ [(k, v)] := by
  simp [jsMapSet, h]

theorem jsMapSet_of_get_some {α : Type} {m : List (String × α)} {k : String}
    (h : (jsMapGet m k).isSome) (v : α) :
    jsMapSet m k v = m.map (fun kv => if kv.1 = k then (k, v) else kv) := by
  simp [jsMapSet, h]

/-- Overwriting an existing key does not change the key list. -/
theorem jsMapSet_keys_of_get_some {α : Type} {m : List (String × α)}
    {k : String} (h : (jsMapGet m k).isSome) (v : α) :
    (jsMapSet m k v).map Prod.fst = m.map Prod.fst := by
  rw [jsMapSet_of_get_some h v, List.map_map]
  refine List.map_congr_left (fun kv _ => ?_)
  by_cases hk : kv.1 = k
  · simp [hk]
  · simp [hk]

/-- The invariant carried through the fold of `dedupBest`: values record their
key as their link, every stored value is a processed item of minimal
price among processed items with its link, every processed link is
present, and keys are distinct. -/
def DedupInv {α : Type} (link : α → String) (price : α → ℚ)
    (m : List (String × α)) (pre : List α) : Prop :=
  (∀ kv ∈ m, link kv.2 = kv.1 ∧ kv.2 ∈ pre ∧
      ∀ g ∈ pre, link g = kv.1 → price kv.2 ≤ price g) ∧
  (∀ g ∈ pre, ∃ kv ∈ m, kv.1 = link g) ∧
  (m.map Prod.fst).Nodup

theorem dedupStep_inv {α : Type} (link : α → String) (price : α → ℚ)
    {m : List (String × α)} {pre : List α} (it : α)
    (h : DedupInv link price m pre) :
    DedupInv link price (dedupStep link price m it) (pre ++ [it]) := by
  obtain ⟨h1, h2, h3⟩ := h
  rcases hget : jsMapGet m (link it) with _ | prev
  · -- fresh link: append (link it, it)
    have hstep : dedupStep link price m it = m ++ [(link it, it)] := by
      simp only [dedupStep, hget]
      exact jsMapSet_of_get_none hget it
    rw [hstep]
    have hfresh := jsMapGet_eq_none hget
    refine ⟨?_, ?_, ?_⟩
    · intro kv hkv
      rcases List.mem_append.mp hkv with hkv | hkv
      · obtain ⟨e1, e2, e3⟩ := h1 kv hkv
        refine ⟨e1, List.mem_append_left _ e2, ?_⟩
        intro g hg he
        rcases List.mem_append.mp hg with hg | hg
        · exact e3 g hg he
        · have hgit : g = it := List.mem_singleton.mp hg
          rw [hgit] at he
          exact absurd he.symm (hfresh kv hkv)
      · have hkvit : kv = (link it, it) := List.mem_singleton.mp hkv
        rw [hkvit]
        refine ⟨rfl, List.mem_append_right _ (List.mem_singleton.mpr rfl), ?_⟩
        intro g hg he
        rcases List.mem_append.mp hg with hg | hg
        · obtain ⟨kv0, hkv0, hkey⟩ := h2 g hg
          exact absurd (hkey.trans he) (hfresh kv0 hkv0)
        · have hgit : g = it := List.mem_singleton.mp hg
          rw [hgit]
    · intro g hg
      rcases List.mem_append.mp hg with hg | hg
      · obtain ⟨kv0, hkv0, hkey⟩ := h2 g hg
        exact ⟨kv0, List.mem_append_left _ hkv0, hkey⟩
      · have hgit : g = it := List.mem_singleton.mp hg
        rw [hgit]
        exact ⟨(link it, it), List.mem_append_right _ (List.mem_singleton.mpr rfl), rfl⟩
    · rw [List.map_append]
      refine List.nodup_append.mpr ⟨h3, List.nodup_singleton _, ?_⟩
      intro a ha hb
      rcases List.mem_singleton.mp hb with rfl
      obtain ⟨kv0, hkv0, hkey⟩ := List.mem_map.mp ha
      exact hfresh kv0 hkv0 hkey
  · -- existing link
    have hprev : (link it, prev) ∈ m := jsMapGet_eq_some_mem hget
    have hsome : (jsMapGet m (link it)).isSome := by rw [hget]; rfl
    have p3 : ∀ g ∈ pre, link g = link it → price prev ≤ price g :=
      (h1 _ hprev).2.2
    have p2 : prev ∈ pre := (h1 _ hprev).2.1
    by_cases hlt : price it < price prev
    · -- cheaper: overwrite the entry
      have hstep : dedupStep link price m it =
          m.map (fun kv => if kv.1 = link it then (link it, it) else kv) := by
        simp only [dedupStep, hget, if_pos hlt]
        exact jsMapSet_of_get_some hsome it
      rw [hstep]
      refine ⟨?_, ?_, ?_⟩
      · intro kv hkv
        obtain ⟨kv0, hkv0, hmapped⟩ := List.mem_map.mp hkv
        by_cases hk : kv0.1 = link it
        · simp only [if_pos hk] at hmapped
          subst hmapped
          refine ⟨rfl, List.mem_append_right _ (List.mem_singleton.mpr rfl), ?_⟩
          intro g hg he
          rcases List.mem_append.mp hg with hg | hg
          · exact le_of_lt (lt_of_lt_of_le hlt (p3 g hg he))
          · have hgit : g = it := List.mem_singleton.mp hg
            rw [hgit]
        · simp only [if_neg hk] at hmapped
          subst hmapped
          obtain ⟨e1, e2, e3⟩ := h1 kv0 hkv0
          refine ⟨e1, List.mem_append_left _ e2, ?_⟩
          intro g hg he
          rcases List.mem_append.mp hg with hg | hg
          · exact e3 g hg he
          · have hgit : g = it := List.mem_singleton.mp hg
            rw [hgit] at he
            exact absurd he.symm hk
      · intro g hg
        rcases List.mem_append.mp hg with hg | hg
        · obtain ⟨kv0, hkv0, hkey⟩ := h2 g hg
          refine ⟨if kv0.1 = link it then (link it, it) else kv0,
            List.mem_map.mpr ⟨kv0, hkv0, rfl⟩, ?_⟩
          by_cases hk : kv0.1 = link it
          · simp only [if_pos hk]
            rw [← hkey, hk]
          · simp only [if_neg hk]
            exact hkey
        · have hgit : g = it := List.mem_singleton.mp hg
          rw [hgit]
          exact ⟨(link it, it), List.mem_map.mpr ⟨(link it, prev), hprev, by simp⟩, rfl⟩
      · rw [← jsMapSet_of_get_some hsome it, jsMapSet_keys_of_get_some hsome it]
        exact h3
    · -- not cheaper: map unchanged
      have hstep : dedupStep link price m it = m := by
        simp only [dedupStep, hget, if_neg hlt]
      rw [hstep]
      refine ⟨?_, ?_, h3⟩
      · intro kv hkv
        obtain ⟨e1, e2, e3⟩ := h1 kv hkv
        refine ⟨e1, List.mem_append_left _ e2, ?_⟩
        intro g hg he
        rcases List.mem_append.mp hg with hg | hg
        · exact e3 g hg he
        · have hgit : g = it := List.mem_singleton.mp hg
          rw [hgit] at he ⊢
          have hkp : kv.2 = prev := by
            refine assoc_keys_unique h3 ?_ hprev
            rw [he]
            exact hkv
          rw [hkp]
          exact le_of_not_lt hlt
      · intro g hg
        rcases List.mem_append.mp hg with hg | hg
        · exact h2 g hg
        · have hgit : g = it := List.mem_singleton.mp hg
          rw [hgit]
          exact ⟨(link it, prev), hprev, rfl⟩

theorem dedupFold_inv {α : Type} (link : α → String) (price : α → ℚ) :
    ∀ (items : List α) (m : List (String × α)) (pre : List α),
      DedupInv link price m pre →
      DedupInv link price (items.foldl (dedupStep link price) m) (pre ++ items) := by
  intro items
  induction items with
  | nil => intro m pre h; simpa using h
  | cons it rest ih =>
    intro m pre h
    have h1 := dedupStep_inv link price it h
    have h2 := ih _ _ h1
    simpa [List.append_assoc] using h2

/-- The cheapest-per-link dedup: distinct links, each output fragment is
an input fragment of minimal price among inputs sharing its link, every
input link represented. -/
theorem dedupBest_spec {α : Type} (link : α → String) (price : α → ℚ)
    (items : List α) :
    ((dedupBest link price items).map link).Nodup ∧
    (∀ f ∈ dedupBest link price items, f ∈ items ∧
        ∀ g ∈ items, link g = link f → price f ≤ price g) ∧
    (∀ g ∈ items, ∃ f ∈ dedupBest link price items, link f = link g) := by
  have hinv : DedupInv link price (items.foldl (dedupStep link price) []) items := by
    have h0 : DedupInv link price ([] : List (String × α)) [] := by
      refine ⟨?_, ?_, ?_⟩ <;> simp [DedupInv]
    simpa using dedupFold_inv link price items [] [] h0
  obtain ⟨h1, h2, h3⟩ := hinv
  refine ⟨?_, ?_, ?_⟩
  · unfold dedupBest jsMapValues
    rw [List.map_map]
    have : (items.foldl (dedupStep link price) []).map (link ∘ Prod.snd) =
        (items.foldl (dedupStep link price) []).map Prod.fst :=
      List.map_congr_left (fun kv hkv => (h1 kv hkv).1)
    rw [this]
    exact h3
  · intro f hf
    obtain ⟨kv, hkv, hsnd⟩ := List.mem_map.mp hf
    obtain ⟨e1, e2, e3⟩ := h1 kv hkv
    subst hsnd
    exact ⟨e2, fun g hg he => e3 g hg (he.trans e1)⟩
  · intro g hg
    obtain ⟨kv, hkv, hkey⟩ := h2 g hg
    exact ⟨kv.2, List.mem_map.mpr ⟨kv, hkv, rfl⟩, (h1 kv hkv).1.trans hkey⟩

/-- C6 amended: the cheapest-per-link dedup (`dedupBest`, the stage at
src lines 347-351 of `searchPricy` — the only adapter that dedups by
price): the output has pairwise-distinct links, each output fragment is an
input fragment of minimal `priceRON` among the input fragments sharing its
link, and every input link is represented.  (The Reselecto adapter applies
no dedup and the OLX detail fetcher keeps the last fragment per link; see
the counterexample.) -/
theorem C6_dedupBest_cheapest {α : Type} (link : α → String) (price : α → ℚ)
    (items : List α) :
    ((dedupBest link price items).map link).Nodup ∧
    (∀ f ∈ dedupBest link price items, f ∈ items ∧
        ∀ g ∈ items, link g = link f → price f ≤ price g) ∧
    (∀ g ∈ items, ∃ f ∈ dedupBest link price items, link f = link g) :=
  dedupBest_spec link price items

/-- An OLX detail fragment at the same link as `odCheap` but more
expensive, fetched later. -/
def odCheap : OlxDetail :=
  ⟨some "TV OLED", "https://www.olx.ro/d/oferta/tv-oled", some 50, none, none⟩

def odDear : OlxDetail :=
  ⟨some "TV OLED", "https://www.olx.ro/d/oferta/tv-oled", some 100, none, none⟩

/-- A Reselecto tile sharing the link of `tileW` but cheaper. -/
def tileWCheap : Tile :=
  ⟨"https://www.reselecto.ro/produs/tv-oled-55", "TV OLED 55 resigilat",
   some 2500⟩

/-- C6 counterexample: (a) the Reselecto adapter keeps both fragments with
the same link (no dedup at all), and (b) the OLX detail fetcher keeps the
*last* fragment for a link even when it is the more expensive one. -/
theorem C6_cex_reselecto_and_olx :
    tileW.link = tileWCheap.link ∧
    (searchReselectoItems [tileW, tileWCheap]).length = 2 ∧
    ((searchReselectoItems [tileW, tileWCheap]).map ReselectoItem.link) =
      [tileW.link, tileW.link] ∧
    odCheap.link = odDear.link ∧ odCheap.priceRON = some 50 ∧
    odDear.priceRON = some 100 ∧
    olxDetailsDedup [odCheap, odDear] = [odDear] := by
  refine ⟨rfl, ?_, ?_, rfl, rfl, rfl, ?_⟩ <;> decide

/-- Witness for `C6_dedupBest_cheapest` on a concrete Pricy item list with
a duplicated link. -/
theorem C6_dedupBest_cheapest_witness :
    ((dedupBest PricyItem.link PricyItem.priceRON
        [⟨none, "www.pricy.ro", "/a/ProductUrlId/1/x", 300⟩,
         ⟨none, "www.pricy.ro", "/a/ProductUrlId/1/x", 200⟩]).map
      PricyItem.link).Nodup :=
  (C6_dedupBest_cheapest PricyItem.link PricyItem.priceRON
    [⟨none, "www.pricy.ro", "/a/ProductUrlId/1/x", 300⟩,
     ⟨none, "www.pricy.ro", "/a/ProductUrlId/1/x", 200⟩]).1

/-! ## C10: Pricy output invariants -/

/-- Inverting the per-match validity filter of `searchPricy`. -/
theorem pricyValid_props {m : PricyMatch} {it : PricyItem}
    (h : pricyValid m = some it) :
    0 < it.priceRON ∧ (it.host = "pricy.ro" ∨ it.host = "www.pricy.ro") ∧
    jsIncludes it.path "/ProductUrlId/" = true := by
  unfold pricyValid at h
  split at h
  · exact absurd h (by simp)
  split at h
  · exact absurd h (by simp)
  split at h
  · exact absurd h (by simp)
  split at h
  · split at h
    · have he := Option.some.inj h
      subst he
      refine ⟨lt_of_not_le (by assumption), by assumption, by assumption⟩
    · exact absurd h (by simp)
  · exact absurd h (by simp)

/-- C10: every item the Pricy adapter outputs has a positive price, a
`pricy.ro`/`www.pricy.ro` host, and a path containing `"/ProductUrlId/"`,
and the output list is sorted by ascending `priceRON`. -/
theorem C10_pricy_output_invariants (ms : List PricyMatch) :
    (∀ it ∈ searchPricyItems ms, 0 < it.priceRON ∧
        (it.host = "pricy.ro" ∨ it.host = "www.pricy.ro") ∧
        jsIncludes it.path "/ProductUrlId/" = true) ∧
    List.Pairwise (fun a b : PricyItem => a.priceRON ≤ b.priceRON)
      (searchPricyItems ms) := by
  constructor
  · intro it hit
    simp only [searchPricyItems] at hit
    have h1 := (List.take_sublist 10 _).subset hit
    have h2 := (List.perm_insertionSort
      (fun a b : PricyItem => a.priceRON ≤ b.priceRON) _).subset h1
    have h3 := (dedupBest_spec PricyItem.link PricyItem.priceRON
      ((ms.filterMap pricyValid).take 120)).2.1 it h2
    have h4 : it ∈ ms.filterMap pricyValid :=
      (List.take_sublist 120 _).subset h3.1
    obtain ⟨mm, _, hvalid⟩ := List.mem_filterMap.mp h4
    exact pricyValid_props hvalid
  · simp only [searchPricyItems]
    exact List.Pairwise.sublist (List.take_sublist 10 _)
      (List.sorted_insertionSort _ _)

/-- Witness for `C10_pricy_output_invariants` on two concrete raw
matches. -/
theorem C10_pricy_output_invariants_witness :
    List.Pairwise (fun a b : PricyItem => a.priceRON ≤ b.priceRON)
      (searchPricyItems
        [⟨some ⟨"www.pricy.ro", "/a/ProductUrlId/1/x"⟩, some 300⟩,
         ⟨some ⟨"www.pricy.ro", "/a/ProductUrlId/2/y"⟩, some 100⟩]) :=
  (C10_pricy_output_invariants
    [⟨some ⟨"www.pricy.ro", "/a/ProductUrlId/1/x"⟩, some 300⟩,
     ⟨some ⟨"www.pricy.ro", "/a/ProductUrlId/2/y"⟩, some 100⟩]).2

/-! ## C7: all adapters fail -/

/-- C7: when all three adapters return a (non-empty) error string with an
empty item list, the pipeline still assembles a result whose `top` is
empty and whose per-source status blocks are `ok = false` with the error
recorded, the route still answers HTTP 200 (any non-blank `q`), and the
result is written to the cache exactly like a success: on the cache miss,
`cachePut` stores it unconditionally with a fresh timestamp.  The scoring
stage (oracle or deterministic fallback) maps an empty candidate list to
an empty scored list, per its contract of one record per candidate. -/
theorem C7_all_sources_fail (intent : Intent) (e₁ e₂ e₃ : String)
    (factsFn : List Frag → List FactRec)
    (scoreFn : List Frag → List ScoredItem) (q : String) (T : ℕ)
    (h₁ : e₁ ≠ "") (h₂ : e₂ ≠ "") (h₃ : e₃ ≠ "")
    (hs : scoreFn [] = []) (hq : jsTrim q ≠ "") :
    (runSearchPipelineM q intent ⟨some e₁, [], none⟩ ⟨some e₂, [], none⟩
        ⟨some e₃, [], none⟩ factsFn scoreFn).top = [] ∧
    (runSearchPipelineM q intent ⟨some e₁, [], none⟩ ⟨some e₂, [], none⟩
        ⟨some e₃, [], none⟩ factsFn scoreFn).pricyStatus =
      ⟨false, 0, some e₁⟩ ∧
    (runSearchPipelineM q intent ⟨some e₁, [], none⟩ ⟨some e₂, [], none⟩
        ⟨some e₃, [], none⟩ factsFn scoreFn).reselectoStatus =
      ⟨false, 0, some e₂⟩ ∧
    (runSearchPipelineM q intent ⟨some e₁, [], none⟩ ⟨some e₂, [], none⟩
        ⟨some e₃, [], none⟩ factsFn scoreFn).olxStatus =
      ⟨false, 0, some e₃⟩ ∧
    apiSearchStatus q = 200 ∧
    runSearchWithCacheM none T
        (runSearchPipelineM q intent ⟨some e₁, [], none⟩ ⟨some e₂, [], none⟩
          ⟨some e₃, [], none⟩ factsFn scoreFn) =
      ((runSearchPipelineM q intent ⟨some e₁, [], none⟩ ⟨some e₂, [], none⟩
          ⟨some e₃, [], none⟩ factsFn scoreFn, false, none),
        some ⟨T, runSearchPipelineM q intent ⟨some e₁, [], none⟩
          ⟨some e₂, [], none⟩ ⟨some e₃, [], none⟩ factsFn scoreFn⟩) := by
  refine ⟨?_, ?_, ?_, ?_, ?_, rfl⟩
  · simp [runSearchPipelineM, hs, rankCandidates, List.insertionSort]
  · simp [runSearchPipelineM, statusOf, truthyStr, h₁]
  · simp [runSearchPipelineM, statusOf, truthyStr, h₂]
  · simp [runSearchPipelineM, statusOf, truthyStr, h₃]
  · simp [apiSearchStatus, hq]

/-- Witness for `C7_all_sources_fail` at concrete errors, oracle-off
stage functions, query and time. -/
theorem C7_all_sources_fail_witness :
    (runSearchPipelineM "oled tv" intentC5 ⟨some "pricy_http_500", [], none⟩
        ⟨some "reselecto_http_500", [], none⟩ ⟨some "timeout", [], none⟩
        (fun _ => []) (fun _ => [])).top = [] ∧
    apiSearchStatus "oled tv" = 200 :=
  ⟨(C7_all_sources_fail intentC5 "pricy_http_500" "reselecto_http_500"
      "timeout" (fun _ => []) (fun _ => []) "oled tv" 1000 (by decide)
      (by decide) (by decide) rfl (by decide)).1,
   (C7_all_sources_fail intentC5 "pricy_http_500" "reselecto_http_500"
      "timeout" (fun _ => []) (fun _ => []) "oled tv" 1000 (by decide)
      (by decide) (by decide) rfl (by decide)).2.2.2.2.1⟩

end PriceHunter
